import Mathlib

/-!
Shallow embedding of `src/src/plugins/ppp/ppp.c` (PPP link-layer header
codec, protocol registry and rewrite builder).

Machine integers are modelled as `Nat` with explicit `% 256` / bounds where
the C code relies on fixed widths.  The header is modelled at the byte
level (a function from byte offset to byte value), which sidesteps host
endianness: the wire format stores the protocol in network byte order at
offsets 2..3 (spec section 6), so `clib_net_to_host_u16` on the stored
field is `buf 2 * 256 + buf 3` and `clib_host_to_net_u16 p` stores bytes
`[p / 256, p % 256]`.

The generic vppinfra/vlib utilities (`unformat`, `hash_set`,
`unformat_vlib_number_by_name`, ...) and `ppp.h` (protocol table,
`ppp_get_protocol_info`) belong to this repository but are not under
`src/`; definitions for them are modelled from the spec and marked as such.
-/

namespace PPPSpec

/-- `~0` stored into the `u32` fields `next_index` / `node_index`. -/
def NOT_SET : Nat := 4294967295

/-- `ppp_protocol_info_t`: one record per known link-layer protocol. -/
structure ppp_protocol_info_t where
  protocol : Nat
  name : String
  next_index : Nat
  node_index : Nat
deriving DecidableEq, Repr

/-- `ppp_main_t`: record vector plus the two hash indices
(protocol → record index, name → record index), each modelled as an
association list with overwrite-on-duplicate-key semantics. -/
structure ppp_main_t where
  protocol_infos : List ppp_protocol_info_t
  protocol_info_by_protocol : List (Nat × Nat)
  protocol_info_by_name : List (String × Nat)
deriving DecidableEq, Repr

/-- Modelled from the spec: vppinfra `hash_set` (not under `src/`) —
insert key/value, overwriting the entry for an already-present key. -/
def hset {α : Type} [DecidableEq α] : List (α × Nat) → α → Nat → List (α × Nat)
  | [], k, v => [(k, v)]
  | (k0, v0) :: rest, k, v =>
      if k0 = k then (k, v) :: rest else (k0, v0) :: hset rest k v

/-- Modelled from the spec: vppinfra `hash_get` (not under `src/`) —
first-match key lookup. -/
def hget {α : Type} [DecidableEq α] : List (α × Nat) → α → Option Nat
  | [], _ => none
  | (k0, v0) :: rest, k => if k0 = k then some v0 else hget rest k

/-- `add_protocol` (ppp.c:208–223): append a fresh record (handler fields
`~0`), then point both indices at its index.  There is no duplicate check. -/
def add_protocol (pm : ppp_main_t) (protocol : Nat) (name : String) : ppp_main_t :=
  let i := pm.protocol_infos.length
  { protocol_infos := pm.protocol_infos ++ [⟨protocol, name, NOT_SET, NOT_SET⟩]
    protocol_info_by_protocol := hset pm.protocol_info_by_protocol protocol i
    protocol_info_by_name := hset pm.protocol_info_by_name name i }

/-- Modelled from the spec: `ppp_get_protocol_info` lives in `ppp.h`, not
under `src/`; the spec describes it as `lookup_by_protocol(protocol_id) ->
optional ProtocolInfo`, an exact-match index lookup. -/
def ppp_get_protocol_info (pm : ppp_main_t) (p : Nat) : Option ppp_protocol_info_t :=
  match hget pm.protocol_info_by_protocol p with
  | some i => pm.protocol_infos[i]?
  | none => none

/-- Modelled from the spec: `lookup_by_name(name) -> optional ProtocolInfo`
(spec 4.1), the name-index analogue of `ppp_get_protocol_info`. -/
def lookup_by_name (pm : ppp_main_t) (n : String) : Option ppp_protocol_info_t :=
  match hget pm.protocol_info_by_name n with
  | some i => pm.protocol_infos[i]?
  | none => none

/-- Modelled from the spec: the built-in protocol table (`foreach_ppp_protocol`
in `ppp.h`, not under `src/`).  The spec (4.1, 6) requires at minimum IPv4,
IPv6 and MPLS-unicast with stable numeric identifiers; IPv4 is 0x0021
(spec scenario 1), IPv6 and MPLS-unicast carry the standard PPP protocol
numbers 0x0057 and 0x0281. -/
def builtin_protocols : List (Nat × String) :=
  [(0x0021, "ip4"), (0x0057, "ip6"), (0x0281, "mpls_unicast")]

/-- Registry population performed by `ppp_init` (ppp.c:244–249): start from
empty hash tables and an empty record vector, then `add_protocol` each
entry of the built-in table in order. -/
def addAll (l : List (Nat × String)) : ppp_main_t :=
  l.foldl (fun pm x => add_protocol pm x.1 x.2) ⟨[], [], []⟩

/-- The registry state after `ppp_init` has populated the built-in table. -/
def ppp_main_init : ppp_main_t := addAll builtin_protocols

/-- Lowercase hex digit, as printed by the C `%x` conversions. -/
def hexDigitChar (n : Nat) : Char :=
  if n < 10 then Char.ofNat (48 + n) else Char.ofNat (87 + n)

/-- `%02x` rendering of a byte. -/
def toHex2 (n : Nat) : String :=
  String.mk [hexDigitChar (n / 16 % 16), hexDigitChar (n % 16)]

/-- `%04x` rendering of a 16-bit value. -/
def toHex4 (n : Nat) : String :=
  String.mk [hexDigitChar (n / 4096 % 16), hexDigitChar (n / 256 % 16),
             hexDigitChar (n / 16 % 16), hexDigitChar (n % 16)]

/-- `format_ppp_protocol` (ppp.c:46–59): append the registered name, or
`0x%04x` when the protocol is not in the registry. -/
def format_ppp_protocol (pm : ppp_main_t) (s : String) (p : Nat) : String :=
  match ppp_get_protocol_info pm p with
  | some pi => s ++ pi.name
  | none => s ++ ("0x" ++ toHex4 p)

/-- A graph node as seen by the formatter: `format_buffer` is the node's
optional trailing-payload formatter.  The model function receives the
payload byte accessor and the payload byte count and returns the rendered
text together with the list of payload-relative offsets it reads. -/
structure vlib_node_model where
  format_buffer : Option ((Nat → Nat) → Nat → String × List Nat)

/-- Modelled from the spec: vppinfra `format_get_indent` (not under
`src/`) — the column of the current line of `s`, used to indent the nested
rendering "to align with the header's own text column" (spec 4.2). -/
def format_get_indent (s : String) : Nat :=
  (s.data.reverse.takeWhile (fun c => c ≠ '\n')).length

/-- Modelled from the spec: vppinfra `format_white_space` (not under
`src/`) — `n` spaces. -/
def format_white_space (n : Nat) : String :=
  String.mk (List.replicate n ' ')

/-- `format_ppp_header_with_length` (ppp.c:61–95).  `buf i` is the byte of
the underlying packet buffer at offset `i` from the header pointer `h`
(so `h->address` is offset 0, `h->control` offset 1, `h->protocol` offsets
2..3 in network byte order).  The result pairs the rendered text with the
list of buffer offsets the code reads, in program order: the protocol
field is read first (ppp.c:67), before the truncation check (ppp.c:71).
Returns `none` where the C would dereference a null `ppp_protocol_info_t`
pointer (ppp.c:86, reachable only inside the trailing-payload branch). -/
def format_ppp_header_with_length (pm : ppp_main_t) (nodes : Nat → vlib_node_model)
    (buf : Nat → Nat) (max_header_bytes : Nat) (s : String) :
    Option (String × List Nat) :=
  let p := buf 2 % 256 * 256 + buf 3 % 256
  let header_bytes := 4
  if max_header_bytes ≠ 0 ∧ header_bytes > max_header_bytes then
    some (s ++ "ppp header truncated", [2, 3])
  else
    let indent := format_get_indent s
    let s1 := format_ppp_protocol pm (s ++ "PPP ") p
    let s2 := if buf 0 % 256 ≠ 0xff then s1 ++ (", address 0x" ++ toHex2 (buf 0 % 256)) else s1
    let s3 := if buf 1 % 256 ≠ 0x03 then s2 ++ (", control 0x" ++ toHex2 (buf 1 % 256)) else s2
    if max_header_bytes ≠ 0 ∧ header_bytes > max_header_bytes then
      match ppp_get_protocol_info pm p with
      | none => none
      | some pi =>
          match (nodes pi.node_index).format_buffer with
          | none => some (s3, [2, 3, 0, 1])
          | some fb =>
              let r := fb (fun i => buf (4 + i)) (max_header_bytes - header_bytes)
              some (s3 ++ ("\n" ++ (format_white_space indent ++ r.1)),
                    [2, 3, 0, 1] ++ r.2.map (fun o => 4 + o))
    else some (s3, [2, 3, 0, 1])

/-- `format_ppp_header` (ppp.c:97–102): delegate with `max_header_bytes = 0`. -/
def format_ppp_header (pm : ppp_main_t) (nodes : Nat → vlib_node_model)
    (buf : Nat → Nat) (s : String) : Option (String × List Nat) :=
  format_ppp_header_with_length pm nodes buf 0 s

/-- A node table with no trailing-payload formatters. -/
def trivial_nodes : Nat → vlib_node_model := fun _ => ⟨none⟩

/-- Byte accessor for a concrete buffer given as a list of bytes. -/
def bufOf (l : List Nat) : Nat → Nat := fun i => l.getD i 0

/-- Hexadecimal digit value of a character, if any. -/
def hexVal (c : Char) : Option Nat :=
  if '0' ≤ c ∧ c ≤ '9' then some (c.toNat - 48)
  else if 'a' ≤ c ∧ c ≤ 'f' then some (c.toNat - 87)
  else if 'A' ≤ c ∧ c ≤ 'F' then some (c.toNat - 55)
  else none

/-- Decimal digit value of a character, if any. -/
def decVal (c : Char) : Option Nat :=
  if '0' ≤ c ∧ c ≤ '9' then some (c.toNat - 48) else none

/-- Accumulate a maximal run of hexadecimal digits. -/
def scanHex : List Char → Nat → Nat × List Char
  | [], acc => (acc, [])
  | c :: cs, acc =>
      match hexVal c with
      | some d => scanHex cs (acc * 16 + d)
      | none => (acc, c :: cs)

/-- Accumulate a maximal run of decimal digits. -/
def scanDec : List Char → Nat → Nat × List Char
  | [], acc => (acc, [])
  | c :: cs, acc =>
      match decVal c with
      | some d => scanDec cs (acc * 10 + d)
      | none => (acc, c :: cs)

/-- Modelled from the spec: the numeric-literal alternatives
`unformat (input, "0x%x", &p) || unformat (input, "%d", &p)` (ppp.c:114);
the `unformat` engine itself is vppinfra code not under `src/`.  Per the
spec (4.2), the token is "a numeric literal in hexadecimal (`0x` prefixed)
or decimal form", the value denoted is returned exactly, and a failed
alternative consumes no input (so on `"0x"` with no following hex digit,
the second alternative still matches the leading `0`). -/
def unformat_number : List Char → Option (Nat × List Char)
  | '0' :: 'x' :: rest =>
      match rest with
      | c :: _ =>
          match hexVal c with
          | some _ => some (scanHex rest 0)
          | none => some (0, 'x' :: rest)
      | [] => some (0, ['x'])
  | input =>
      match input with
      | c :: _ =>
          match decVal c with
          | some _ => some (scanDec input 0)
          | none => none
      | [] => none

/-- A character `unformat_vlib_number_by_name` treats as part of a name
token (alphanumeric or underscore). -/
def isTokenChar (c : Char) : Bool := c.isAlphanum || c = '_'

/-- Modelled from the spec: `unformat_vlib_number_by_name` (vlib, not
under `src/`) — "a name token resolved through `lookup_by_name`"
(spec 4.2): read the leading name token, look it up in the name index,
and on a miss fail without consuming input. -/
def unformat_vlib_number_by_name (h : List (String × Nat)) (input : List Char) :
    Option (Nat × List Char) :=
  let tok := input.takeWhile (fun c => isTokenChar c)
  if tok.isEmpty then none
  else
    match hget h (String.mk tok) with
    | some i => some (i, input.dropWhile (fun c => isTokenChar c))
    | none => none

/-- `unformat_ppp_protocol_host_byte_order` (ppp.c:105–132): numeric form
first — if it matches, a value ≥ 2^16 fails the whole parse without
trying the named form (ppp.c:116–117) — otherwise a registered name. -/
def unformat_ppp_protocol_host_byte_order (pm : ppp_main_t) (input : List Char) :
    Option (Nat × List Char) :=
  match unformat_number input with
  | some (p, rest) => if p ≥ 65536 then none else some (p, rest)
  | none =>
      match unformat_vlib_number_by_name pm.protocol_info_by_name input with
      | some (i, rest) =>
          match pm.protocol_infos[i]? with
          | some pi => some (pi.protocol, rest)
          | none => none
      | none => none

/-- `unformat_ppp_header` (ppp.c:145–169): parse the protocol in host
byte order; on success append the 4 header bytes
`[0xff, 0x03, hi(protocol), lo(protocol)]` (protocol stored via
`clib_host_to_net_u16`) to the caller's byte vector; on failure return 0
leaving the vector untouched.  The result is
`(succeeded, result_vector, remaining_input)`. -/
def unformat_ppp_header (pm : ppp_main_t) (input : List Char) (result : List Nat) :
    Bool × List Nat × List Char :=
  match unformat_ppp_protocol_host_byte_order pm input with
  | none => (false, result, input)
  | some (p, rest) => (true, result ++ [0xff, 0x03, p / 256 % 256, p % 256], rest)

/-- `vnet_link_t` (vnet, external collaborator): the outgoing
network-layer families `ppp_build_rewrite` can be called with. -/
inductive vnet_link_t where
  | IP4
  | IP6
  | MPLS
  | ETHERNET
  | ARP
  | NSH
deriving DecidableEq, Repr

/-- Modelled from the spec: the three protocol identifiers named by the
built-in table (ppp.h, not under `src/`); see `builtin_protocols`. -/
def PPP_PROTOCOL_ip4 : Nat := 0x0021

def PPP_PROTOCOL_ip6 : Nat := 0x0057

def PPP_PROTOCOL_mpls_unicast : Nat := 0x0281

/-- `ppp_build_rewrite` (ppp.c:171–198): select the protocol for the link
type (default: return NULL, modelled `none`), then build the 4 header
bytes `address = 0xff`, `control = 0x03`, protocol in network byte order. -/
def ppp_build_rewrite (link_type : vnet_link_t) : Option (List Nat) :=
  let protocol? : Option Nat :=
    match link_type with
    | .IP4 => some PPP_PROTOCOL_ip4
    | .IP6 => some PPP_PROTOCOL_ip6
    | .MPLS => some PPP_PROTOCOL_mpls_unicast
    | _ => none
  match protocol? with
  | none => none
  | some protocol => some [0xff, 0x03, protocol / 256 % 256, protocol % 256]

/-- A registry in which `ip4`'s record carries a registered handler
(`node_index = 7`), as `ppp_register_input_protocol` leaves it. -/
def pm_with_handler : ppp_main_t :=
  ⟨[⟨0x0021, "ip4", NOT_SET, 7⟩], [(0x0021, 0)], [("ip4", 0)]⟩

/-- A node table in which every node exposes a trailing-payload
formatter, so the nested rendering is available to the header formatter. -/
def nodes_with_fb : Nat → vlib_node_model :=
  fun _ => ⟨some (fun _ n => ("trailing payload rendering", List.range n))⟩

/-- `s ++ ""` is `s`. -/
theorem string_append_empty_eq (s : String) : s ++ "" = s :=
  String.append_empty s

/-- Claim C1.  The truncation text is produced for `max_bytes` strictly
between 0 and the 4-byte header size — here at `max_bytes = 1` — but the
claim's no-read-past-the-bound half fails on the code: the protocol field
at offsets 2 and 3 is read unconditionally (ppp.c:67) before the
truncation check (ppp.c:71), and both offsets lie beyond the bound 1. -/
theorem C1_truncation_reads_protocol :
    format_ppp_header_with_length ppp_main_init trivial_nodes
        (bufOf [0xff, 0x03, 0x00, 0x21]) 1 ""
      = some ("ppp header truncated", [2, 3])
    ∧ (1 : Nat) < 2 ∧ (1 : Nat) < 3 := by
  refine ⟨by decide, by decide, by decide⟩

/-- Claim C2.  Even with the full header available (`max_bytes = 8`), a
registered downstream handler, and that handler exposing a
trailing-payload formatter, the rendering contains no nested payload text
and no byte past the header is read: the trailing-payload branch
(ppp.c:83) is guarded by the same `header_bytes > max_header_bytes`
condition that already returned "truncated" (ppp.c:71), so it is dead
code and the nested rendering is never appended. -/
theorem C2_trailing_payload_dead :
    format_ppp_header_with_length pm_with_handler nodes_with_fb
        (bufOf [0xff, 0x03, 0x00, 0x21, 0xde, 0xad, 0xbe, 0xef]) 8 ""
      = some ("PPP ip4", [2, 3, 0, 1]) := by
  decide

/-- Claim C3.  `ppp_build_rewrite` maps IPv4, IPv6 and MPLS-unicast to
exactly the four header bytes `FF 03` followed by the family's protocol
identifier in network byte order, and every other link family to `none`
(the "unsupported" result), with no partial header. -/
theorem C3_build_rewrite :
    ppp_build_rewrite .IP4 = some [0xff, 0x03, 0x00, 0x21]
    ∧ ppp_build_rewrite .IP6 = some [0xff, 0x03, 0x00, 0x57]
    ∧ ppp_build_rewrite .MPLS = some [0xff, 0x03, 0x02, 0x81]
    ∧ ∀ l : vnet_link_t, l ≠ .IP4 → l ≠ .IP6 → l ≠ .MPLS →
        ppp_build_rewrite l = none := by
  refine ⟨rfl, rfl, rfl, ?_⟩
  intro l h1 h2 h3
  cases l <;> first | rfl | simp_all

/-- Witness for C3 at the concrete unsupported family `ETHERNET`. -/
theorem C3_build_rewrite_witness :
    vnet_link_t.ETHERNET ≠ vnet_link_t.IP4
    ∧ ppp_build_rewrite vnet_link_t.ETHERNET = none :=
  ⟨by decide,
   C3_build_rewrite.2.2.2 vnet_link_t.ETHERNET (by decide) (by decide) (by decide)⟩

/-- Claim C4.  When the leading token is a numeric literal denoting `v`,
the protocol parse succeeds with exactly `v` when `v < 2^16` and fails
(returning `none`, the input not consumed) when `v ≥ 2^16`; in the
failure case the named alternative is not tried (ppp.c:116–117). -/
theorem C4_numeric_16bit (pm : ppp_main_t) (input : List Char) (v : Nat)
    (rest : List Char) (h : unformat_number input = some (v, rest)) :
    (v < 65536 → unformat_ppp_protocol_host_byte_order pm input = some (v, rest))
    ∧ (65536 ≤ v → unformat_ppp_protocol_host_byte_order pm input = none) := by
  unfold unformat_ppp_protocol_host_byte_order
  rw [h]
  constructor
  · intro hv
    have hnot : ¬ v ≥ 65536 := by omega
    simp [hnot]
  · intro hv
    simp [hv]

/-- Witness for C4 at the concrete inputs `"0x21"` (33, accepted) and
`"99999"` (≥ 2^16, rejected). -/
theorem C4_numeric_16bit_witness :
    unformat_number ("0x21".data) = some (33, [])
    ∧ unformat_ppp_protocol_host_byte_order ppp_main_init ("0x21".data) = some (33, [])
    ∧ unformat_number ("99999".data) = some (99999, [])
    ∧ unformat_ppp_protocol_host_byte_order ppp_main_init ("99999".data) = none :=
  ⟨by decide,
   (C4_numeric_16bit ppp_main_init ("0x21".data) 33 [] (by decide)).1 (by decide),
   by decide,
   (C4_numeric_16bit ppp_main_init ("99999".data) 99999 [] (by decide)).2 (by decide)⟩

/-- Claim C5.  The header parse is all-or-nothing: whenever the protocol
parse succeeds it appends exactly the four bytes `FF 03` plus the value
in network byte order to the caller's vector; whenever it fails the
vector is returned unchanged.  For input `"ip4"` the appended bytes are
`FF 03 00 21`. -/
theorem C5_unformat_ppp_header_all_or_nothing :
    (∀ (input : List Char) (result : List Nat),
      match unformat_ppp_protocol_host_byte_order ppp_main_init input with
      | some (p, rest) =>
          unformat_ppp_header ppp_main_init input result
            = (true, result ++ [0xff, 0x03, p / 256 % 256, p % 256], rest)
      | none => unformat_ppp_header ppp_main_init input result = (false, result, input))
    ∧ unformat_ppp_header ppp_main_init ("ip4".data) []
        = (true, [0xff, 0x03, 0x00, 0x21], []) := by
  constructor
  · intro input result
    cases h : unformat_ppp_protocol_host_byte_order ppp_main_init input with
    | none => simp [unformat_ppp_header, h]
    | some pr =>
        obtain ⟨p, rest⟩ := pr
        simp [unformat_ppp_header, h]
  · decide

/-- Counterexample to claim C6 as stated: parsing `"ip4"` yields the
header `FF 03 00 21`, formatting that header yields the text
`"PPP ip4"`, and that full text does **not** parse back — the parse
fails on the leading `"PPP"` token. -/
theorem C6_counterexample :
    unformat_ppp_header ppp_main_init ("ip4".data) []
        = (true, [0xff, 0x03, 0x00, 0x21], [])
    ∧ format_ppp_header ppp_main_init trivial_nodes (bufOf [0xff, 0x03, 0x00, 0x21]) ""
        = some ("PPP ip4", [2, 3, 0, 1])
    ∧ (unformat_ppp_header ppp_main_init ("PPP ip4".data) []).1 = false := by
  refine ⟨by decide, by decide, by decide⟩

/-- Claim C6 as amended.  For every built-in protocol, the named form and
the numeric form parse to byte-identical headers; formatting that header
renders `"PPP "` followed by the protocol's registered name; and after
stripping that fixed 4-character `"PPP "` lead-in, the rendered text
parses back to a byte-identical header. -/
theorem C6_roundtrip_amended (x : Nat × String) (h : x ∈ builtin_protocols) :
    unformat_ppp_header ppp_main_init x.2.data []
        = (true, [0xff, 0x03, x.1 / 256 % 256, x.1 % 256], [])
    ∧ unformat_ppp_header ppp_main_init (("0x" ++ toHex4 x.1).data) []
        = (true, [0xff, 0x03, x.1 / 256 % 256, x.1 % 256], [])
    ∧ format_ppp_header ppp_main_init trivial_nodes
          (bufOf [0xff, 0x03, x.1 / 256 % 256, x.1 % 256]) ""
        = some ("PPP " ++ x.2, [2, 3, 0, 1])
    ∧ unformat_ppp_header ppp_main_init ((("PPP " ++ x.2).data).drop 4) []
        = (true, [0xff, 0x03, x.1 / 256 % 256, x.1 % 256], []) := by
  fin_cases h <;> exact ⟨by decide, by decide, by decide, by decide⟩

/-- Witness for the amended C6 at the built-in protocol `ip4`. -/
theorem C6_roundtrip_amended_witness :
    ((0x0021 : Nat), "ip4") ∈ builtin_protocols
    ∧ unformat_ppp_header ppp_main_init ("ip4".data) []
        = (true, [0xff, 0x03, 0x00, 0x21], []) :=
  ⟨by decide, (C6_roundtrip_amended ((0x0021 : Nat), "ip4") (by decide)).1⟩

/-- Counterexample to claim C9 as stated: calling `add_protocol` with a
protocol id and name both already present does not fail — it appends a
second record, after which the registered protocol ids are no longer
unique. -/
theorem C9_counterexample :
    (add_protocol (addAll [(0x0021, "ip4")]) 0x0021 "ip4").protocol_infos.length = 2
    ∧ ¬ ((add_protocol (addAll [(0x0021, "ip4")]) 0x0021 "ip4").protocol_infos.map
          (fun pi => pi.protocol)).Nodup := by
  refine ⟨by decide, by decide⟩

/-- Looking up the key just written by `hset` returns the value that was
written, whether the key was fresh (entry appended) or already present
(entry overwritten in place). -/
theorem hget_hset {α : Type} [DecidableEq α] (h : List (α × Nat)) (k : α) (v : Nat) :
    hget (hset h k v) k = some v := by
  induction h with
  | nil => simp [hset, hget]
  | cons e rest ih =>
      obtain ⟨k0, v0⟩ := e
      by_cases hk : k0 = k
      · simp [hset, hget, hk]
      · simp [hset, hget, hk, ih]

/-- Claim C9 as amended.  `add_protocol` performs no presence check and
never fails: called with a protocol id or a name that is already
registered, it still appends a new record, re-points both index entries
at that new record (looking the id and the name up in the indices now
resolves to the new record's position), and the registered protocol ids
and names are then no longer both unique keys — uniqueness is a caller
obligation (the fixed built-in startup table), not enforced by the
operation. -/
theorem C9_amended (pm : ppp_main_t) (p : Nat) (n : String)
    (hdup : p ∈ pm.protocol_infos.map (fun pi => pi.protocol)
            ∨ n ∈ pm.protocol_infos.map (fun pi => pi.name)) :
    (add_protocol pm p n).protocol_infos
        = pm.protocol_infos ++ [⟨p, n, NOT_SET, NOT_SET⟩]
    ∧ hget (add_protocol pm p n).protocol_info_by_protocol p
        = some pm.protocol_infos.length
    ∧ hget (add_protocol pm p n).protocol_info_by_name n
        = some pm.protocol_infos.length
    ∧ ¬ (((add_protocol pm p n).protocol_infos.map (fun pi => pi.protocol)).Nodup
         ∧ ((add_protocol pm p n).protocol_infos.map (fun pi => pi.name)).Nodup) := by
  refine ⟨rfl, ?_, ?_, ?_⟩
  · simp only [add_protocol]
    exact hget_hset _ _ _
  · simp only [add_protocol]
    exact hget_hset _ _ _
  · rintro ⟨hnp, hnn⟩
    rcases hdup with hdp | hdn
    · simp only [add_protocol, List.map_append, List.map_cons, List.map_nil] at hnp
      rw [List.nodup_append_comm] at hnp
      exact (List.nodup_cons.1 hnp).1 hdp
    · simp only [add_protocol, List.map_append, List.map_cons, List.map_nil] at hnn
      rw [List.nodup_append_comm] at hnn
      exact (List.nodup_cons.1 hnn).1 hdn

/-- Witness for the amended C9 at the duplicate-name-only case: adding
the fresh id `0x99` under the already-registered name `"ip4"`. -/
theorem C9_amended_witness :
    ((0x0021 : Nat) ∈ (addAll [(0x0021, "ip4")]).protocol_infos.map (fun pi => pi.protocol)
      ∨ "ip4" ∈ (addAll [(0x0021, "ip4")]).protocol_infos.map (fun pi => pi.name))
    ∧ ((add_protocol (addAll [(0x0021, "ip4")]) 0x0099 "ip4").protocol_infos
          = (addAll [(0x0021, "ip4")]).protocol_infos
              ++ [⟨0x0099, "ip4", NOT_SET, NOT_SET⟩]
       ∧ hget (add_protocol (addAll [(0x0021, "ip4")])
                 0x0099 "ip4").protocol_info_by_protocol 0x0099
          = some (addAll [(0x0021, "ip4")]).protocol_infos.length
       ∧ hget (add_protocol (addAll [(0x0021, "ip4")])
                 0x0099 "ip4").protocol_info_by_name "ip4"
          = some (addAll [(0x0021, "ip4")]).protocol_infos.length
       ∧ ¬ (((add_protocol (addAll [(0x0021, "ip4")]) 0x0099 "ip4").protocol_infos.map
               (fun pi => pi.protocol)).Nodup
            ∧ ((add_protocol (addAll [(0x0021, "ip4")]) 0x0099 "ip4").protocol_infos.map
               (fun pi => pi.name)).Nodup)) :=
  ⟨Or.inr (by decide),
   C9_amended (addAll [(0x0021, "ip4")]) 0x0099 "ip4" (Or.inr (by decide))⟩

/-- Any non-truncated rendering starts, after the caller's accumulated
text `s`, with `"PPP "`; the truncation text starts with lowercase
`"ppp"`, so the two can never coincide. -/
theorem ppp_tail_ne (s : List Char) (rest : List Char) :
    s ++ ('P' :: 'P' :: 'P' :: ' ' :: rest) ≠ s ++ "ppp header truncated".data := by
  intro h
  have h2 := List.append_cancel_left h
  have h3 : (('P' :: 'P' :: 'P' :: ' ' :: rest).take 4)
      = ("ppp header truncated".data.take 4) := by rw [h2]
  have h4 : (['P', 'P', 'P', ' '] : List Char) = ['p', 'p', 'p', ' '] := h3
  exact absurd h4 (by decide)

/-- String-level form of `ppp_tail_ne`. -/
theorem ppp_text_ne_trunc (s r : String) :
    s ++ ("PPP " ++ r) ≠ s ++ "ppp header truncated" := by
  intro h
  have hd := congrArg String.data h
  rw [String.data_append, String.data_append, String.data_append] at hd
  exact ppp_tail_ne s.data r.data hd

/-- Claim C7.  For any header rendered without truncation (`max_bytes`
zero or at least the 4-byte header size), the text is the protocol's
registered name — or the numeric `0xNNNN` form when the protocol is not
in the registry — prefixed by `"PPP "`, followed by the address field in
hex only when it differs from `0xFF` and the control field in hex only
when it differs from `0x03`; in particular the conventional IPv4 header
formats to exactly `"PPP ip4"`. -/
theorem C7_format_fields (pm : ppp_main_t) (nodes : Nat → vlib_node_model)
    (buf : Nat → Nat) (max_header_bytes : Nat)
    (h : max_header_bytes = 0 ∨ 4 ≤ max_header_bytes) :
    format_ppp_header_with_length pm nodes buf max_header_bytes ""
      = some ((match ppp_get_protocol_info pm (buf 2 % 256 * 256 + buf 3 % 256) with
               | some pi => "PPP " ++ pi.name
               | none => "PPP " ++ ("0x" ++ toHex4 (buf 2 % 256 * 256 + buf 3 % 256)))
              ++ (if buf 0 % 256 ≠ 0xff then ", address 0x" ++ toHex2 (buf 0 % 256) else "")
              ++ (if buf 1 % 256 ≠ 0x03 then ", control 0x" ++ toHex2 (buf 1 % 256) else ""),
              [2, 3, 0, 1])
    ∧ format_ppp_header_with_length ppp_main_init trivial_nodes
          (bufOf [0xff, 0x03, 0x00, 0x21]) 4 "" = some ("PPP ip4", [2, 3, 0, 1]) := by
  have hc : ¬ (max_header_bytes ≠ 0 ∧ 4 > max_header_bytes) := by omega
  constructor
  · unfold format_ppp_header_with_length format_ppp_protocol
    rw [if_neg hc, if_neg hc]
    cases hpi : ppp_get_protocol_info pm (buf 2 % 256 * 256 + buf 3 % 256) with
    | some pi =>
        split_ifs <;>
          simp [String.empty_append, string_append_empty_eq, String.append_assoc]
    | none =>
        split_ifs <;>
          simp [String.empty_append, string_append_empty_eq, String.append_assoc]
  · decide

/-- Witness for C7: the conventional IPv4 header at the exact bound 4. -/
theorem C7_format_fields_witness :
    format_ppp_header_with_length ppp_main_init trivial_nodes
        (bufOf [0xff, 0x03, 0x00, 0x21]) 4 "" = some ("PPP ip4", [2, 3, 0, 1]) :=
  (C7_format_fields ppp_main_init trivial_nodes (bufOf [0xff, 0x03, 0x00, 0x21]) 4
      (Or.inr (by omega))).2

/-- Claim C10.  A zero byte bound means "unlimited": `format_ppp_header`
delegates with bound 0, the bound-0 rendering coincides with the
rendering at the full header size, and the boundless formatter can never
produce the truncation indication. -/
theorem C10_zero_bound_unbounded (pm : ppp_main_t) (nodes : Nat → vlib_node_model)
    (buf : Nat → Nat) (s : String) :
    format_ppp_header pm nodes buf s = format_ppp_header_with_length pm nodes buf 0 s
    ∧ format_ppp_header_with_length pm nodes buf 0 s
        = format_ppp_header_with_length pm nodes buf 4 s
    ∧ ∀ t reads, format_ppp_header pm nodes buf s = some (t, reads) →
        t ≠ s ++ "ppp header truncated" := by
  refine ⟨rfl, by simp [format_ppp_header_with_length], ?_⟩
  intro t reads hsome
  unfold format_ppp_header format_ppp_header_with_length format_ppp_protocol at hsome
  simp only [ne_eq, not_true_eq_false, false_and, if_false, ite_false] at hsome
  cases hpi : ppp_get_protocol_info pm (buf 2 % 256 * 256 + buf 3 % 256) with
  | some pi =>
      rw [hpi] at hsome
      split_ifs at hsome <;>
        · obtain ⟨rfl, -⟩ := Prod.mk.injEq .. ▸ Option.some.injEq .. ▸ hsome
          simp only [String.append_assoc]
          exact ppp_text_ne_trunc s _
  | none =>
      rw [hpi] at hsome
      split_ifs at hsome <;>
        · obtain ⟨rfl, -⟩ := Prod.mk.injEq .. ▸ Option.some.injEq .. ▸ hsome
          simp only [String.append_assoc]
          exact ppp_text_ne_trunc s _

/-- Witness for C10 at the conventional IPv4 header. -/
theorem C10_zero_bound_unbounded_witness :
    format_ppp_header ppp_main_init trivial_nodes (bufOf [0xff, 0x03, 0x00, 0x21]) ""
        = some ("PPP ip4", [2, 3, 0, 1])
    ∧ "PPP ip4" ≠ "" ++ "ppp header truncated" :=
  ⟨by decide,
   (C10_zero_bound_unbounded ppp_main_init trivial_nodes (bufOf [0xff, 0x03, 0x00, 0x21])
      "").2.2 "PPP ip4" [2, 3, 0, 1] (by decide)⟩

/-- The record `add_protocol` builds from a table entry. -/
def mkinfo (x : Nat × String) : ppp_protocol_info_t :=
  ⟨x.1, x.2, NOT_SET, NOT_SET⟩

/-- `idxPairs n ks` is the association list `[(ks[0], n), (ks[1], n+1), ...]`:
the shape the hash indices take after a run of fresh insertions. -/
def idxPairs {α : Type} : Nat → List α → List (α × Nat)
  | _, [] => []
  | n, k :: ks => (k, n) :: idxPairs (n + 1) ks

/-- Inserting a key not already present appends the entry. -/
theorem hset_fresh {α : Type} [DecidableEq α] (h : List (α × Nat)) (k : α) (v : Nat)
    (hk : k ∉ h.map Prod.fst) : hset h k v = h ++ [(k, v)] := by
  induction h with
  | nil => rfl
  | cons e rest ih =>
      obtain ⟨k0, v0⟩ := e
      simp only [List.map_cons, List.mem_cons] at hk
      push_neg at hk
      simp only [hset]
      rw [if_neg (fun he => hk.1 he.symm), ih hk.2]
      rfl

/-- Folding `add_protocol` over a table of pairwise-fresh entries appends
the corresponding records and index entries in order. -/
theorem addAll_go (l : List (Nat × String)) : ∀ (pm : ppp_main_t),
    (∀ x ∈ l, x.1 ∉ pm.protocol_info_by_protocol.map Prod.fst) →
    (∀ x ∈ l, x.2 ∉ pm.protocol_info_by_name.map Prod.fst) →
    (l.map Prod.fst).Nodup → (l.map Prod.snd).Nodup →
    List.foldl (fun pm x => add_protocol pm x.1 x.2) pm l
      = ⟨pm.protocol_infos ++ l.map mkinfo,
         pm.protocol_info_by_protocol
           ++ idxPairs pm.protocol_infos.length (l.map Prod.fst),
         pm.protocol_info_by_name
           ++ idxPairs pm.protocol_infos.length (l.map Prod.snd)⟩ := by
  induction l with
  | nil =>
      intro pm _ _ _ _
      simp [idxPairs]
  | cons x t ih =>
      intro pm h1 h2 hn1 hn2
      simp only [List.map_cons, List.nodup_cons] at hn1 hn2
      have hstep : add_protocol pm x.1 x.2
          = ⟨pm.protocol_infos ++ [mkinfo x],
             pm.protocol_info_by_protocol ++ [(x.1, pm.protocol_infos.length)],
             pm.protocol_info_by_name ++ [(x.2, pm.protocol_infos.length)]⟩ := by
        simp only [add_protocol]
        rw [hset_fresh _ _ _ (h1 x (List.mem_cons_self x t)),
            hset_fresh _ _ _ (h2 x (List.mem_cons_self x t))]
        rfl
      have ht1 : ∀ y ∈ t,
          y.1 ∉ (pm.protocol_info_by_protocol
                   ++ [(x.1, pm.protocol_infos.length)]).map Prod.fst := by
        intro y hy
        simp only [List.map_append, List.map_cons, List.map_nil, List.mem_append,
          List.mem_singleton]
        push_neg
        refine ⟨h1 y (List.mem_cons_of_mem x hy), ?_⟩
        intro hcontra
        exact hn1.1 (hcontra ▸ List.mem_map_of_mem Prod.fst hy)
      have ht2 : ∀ y ∈ t,
          y.2 ∉ (pm.protocol_info_by_name
                   ++ [(x.2, pm.protocol_infos.length)]).map Prod.fst := by
        intro y hy
        simp only [List.map_append, List.map_cons, List.map_nil, List.mem_append,
          List.mem_singleton]
        push_neg
        refine ⟨h2 y (List.mem_cons_of_mem x hy), ?_⟩
        intro hcontra
        exact hn2.1 (hcontra ▸ List.mem_map_of_mem Prod.snd hy)
      simp only [List.foldl_cons]
      rw [hstep, ih _ ht1 ht2 hn1.2 hn2.2]
      simp [idxPairs, List.append_assoc, List.length_append]

/-- `addAll` on a table with pairwise-distinct protocol ids and names:
the records are the table entries in order and each index maps the i-th
key to i. -/
theorem addAll_eq (l : List (Nat × String))
    (hn1 : (l.map Prod.fst).Nodup) (hn2 : (l.map Prod.snd).Nodup) :
    addAll l = ⟨l.map mkinfo, idxPairs 0 (l.map Prod.fst),
                idxPairs 0 (l.map Prod.snd)⟩ := by
  have h := addAll_go l ⟨[], [], []⟩ (by simp) (by simp) hn1 hn2
  simpa [addAll] using h

/-- Looking a distinct key list's i-th key up in its `idxPairs` gives
`n + i`. -/
theorem hget_idxPairs {α : Type} [DecidableEq α] (ks : List α) (hn : ks.Nodup) :
    ∀ (n i : Nat) (hi : i < ks.length), hget (idxPairs n ks) (ks.get ⟨i, hi⟩)
      = some (n + i) := by
  induction ks with
  | nil =>
      intro n i hi
      exact absurd hi (by simp)
  | cons k ks ih =>
      intro n i hi
      simp only [List.nodup_cons] at hn
      cases i with
      | zero => simp [idxPairs, hget]
      | succ j =>
          have hj : j < ks.length := by simpa using hi
          have hmem : ks.get ⟨j, hj⟩ ∈ ks := List.get_mem ks j hj
          have hne : k ≠ ks.get ⟨j, hj⟩ := fun he => hn.1 (he ▸ hmem)
          simp only [idxPairs, hget, List.get_cons_succ]
          rw [if_neg hne, ih hn.2 (n + 1) j hj]
          congr 1
          omega

/-- Every entry of `idxPairs n ks` is `(ks[i], n + i)` for some `i`. -/
theorem mem_idxPairs {α : Type} (ks : List α) : ∀ (n : Nat) (e : α × Nat),
    e ∈ idxPairs n ks → ∃ i, ∃ hi : i < ks.length,
      e.2 = n + i ∧ ks.get ⟨i, hi⟩ = e.1 := by
  induction ks with
  | nil =>
      intro n e he
      exact absurd he (by simp [idxPairs])
  | cons k ks ih =>
      intro n e he
      simp only [idxPairs, List.mem_cons] at he
      rcases he with rfl | he
      · exact ⟨0, by simp, by simp, by simp⟩
      · obtain ⟨i, hi, he2, hke⟩ := ih (n + 1) e he
        refine ⟨i + 1, by simpa using Nat.succ_lt_succ hi, by omega, by simpa using hke⟩

/-- The registry-consistency invariant of claim C8: every record is found
back, with matching name and protocol, through both indices, and every
index entry points at a backing record with the matching key. -/
def RegistryConsistent (pm : ppp_main_t) : Prop :=
  (∀ pi ∈ pm.protocol_infos,
      (∃ q, ppp_get_protocol_info pm pi.protocol = some q ∧ q.name = pi.name)
      ∧ (∃ q, lookup_by_name pm pi.name = some q ∧ q.protocol = pi.protocol))
  ∧ (∀ e ∈ pm.protocol_info_by_protocol,
      ∃ q, pm.protocol_infos[e.2]? = some q ∧ q.protocol = e.1)
  ∧ (∀ e ∈ pm.protocol_info_by_name,
      ∃ q, pm.protocol_infos[e.2]? = some q ∧ q.name = e.1)

/-- Counterexample to claim C8 as stated: after the `add_protocol`
sequence `(33, "ip4")` then `(33, "ip6")` — a sequence of operations the
code accepts — the record `⟨33, "ip4"⟩` is registered, yet
`lookup_by_protocol 33` returns the record named `"ip6"`, not `"ip4"`. -/
theorem C8_counterexample :
    (⟨33, "ip4", NOT_SET, NOT_SET⟩ : ppp_protocol_info_t)
        ∈ (addAll [(33, "ip4"), (33, "ip6")]).protocol_infos
    ∧ ppp_get_protocol_info (addAll [(33, "ip4"), (33, "ip6")]) 33
        = some ⟨33, "ip6", NOT_SET, NOT_SET⟩
    ∧ ("ip6" : String) ≠ "ip4" := by
  refine ⟨by decide, by decide, by decide⟩

/-- Claim C8 as amended.  After every sequence of `add_protocol`
operations whose protocol ids are pairwise distinct and whose names are
pairwise distinct (the uniqueness the callers must guarantee), the two
indices are consistent with the record collection: each registered
record is found back by protocol with its own name and by name with its
own protocol, and every index entry points at a backing record with the
matching key. -/
theorem C8_amended (l : List (Nat × String))
    (hn1 : (l.map Prod.fst).Nodup) (hn2 : (l.map Prod.snd).Nodup) :
    RegistryConsistent (addAll l) := by
  rw [addAll_eq l hn1 hn2]
  refine ⟨?_, ?_, ?_⟩
  · intro pi hpi
    obtain ⟨x, hx, rfl⟩ := List.mem_map.1 hpi
    obtain ⟨⟨i, hi⟩, hxi⟩ := List.mem_iff_get.1 hx
    have hif : i < (l.map Prod.fst).length := by simpa using hi
    have hin : i < (l.map Prod.snd).length := by simpa using hi
    have hgx : l[i] = x := hxi
    have hgf : hget (idxPairs 0 (l.map Prod.fst)) x.1 = some i := by
      have h0 := hget_idxPairs (l.map Prod.fst) hn1 0 i hif
      simp only [List.get_eq_getElem, List.getElem_map] at h0
      simpa [hgx] using h0
    have hgn : hget (idxPairs 0 (l.map Prod.snd)) x.2 = some i := by
      have h0 := hget_idxPairs (l.map Prod.snd) hn2 0 i hin
      simp only [List.get_eq_getElem, List.getElem_map] at h0
      simpa [hgx] using h0
    have hrec : (l.map mkinfo)[i]? = some (mkinfo x) := by
      rw [List.getElem?_map, List.getElem?_eq_getElem hi, hgx]
      rfl
    constructor
    · exact ⟨mkinfo x, by simp [ppp_get_protocol_info, mkinfo, hgf, hrec], rfl⟩
    · exact ⟨mkinfo x, by simp [lookup_by_name, mkinfo, hgn, hrec], rfl⟩
  · intro e he
    obtain ⟨i, hi, he2, hke⟩ := mem_idxPairs (l.map Prod.fst) 0 e he
    have hil : i < l.length := by simpa using hi
    refine ⟨mkinfo (l.get ⟨i, hil⟩), ?_, ?_⟩
    · rw [show e.2 = i from by omega, List.getElem?_map, List.getElem?_eq_getElem hil]
      rfl
    · rw [← hke]
      simp [mkinfo, List.get_eq_getElem, List.getElem_map]
  · intro e he
    obtain ⟨i, hi, he2, hke⟩ := mem_idxPairs (l.map Prod.snd) 0 e he
    have hil : i < l.length := by simpa using hi
    refine ⟨mkinfo (l.get ⟨i, hil⟩), ?_, ?_⟩
    · rw [show e.2 = i from by omega, List.getElem?_map, List.getElem?_eq_getElem hil]
      rfl
    · rw [← hke]
      simp [mkinfo, List.get_eq_getElem, List.getElem_map]

/-- Witness for the amended C8: the built-in table has pairwise-distinct
ids and names, and the resulting startup registry is consistent. -/
theorem C8_amended_witness :
    (builtin_protocols.map Prod.fst).Nodup
    ∧ (builtin_protocols.map Prod.snd).Nodup
    ∧ RegistryConsistent (addAll builtin_protocols) :=
  ⟨by decide, by decide, C8_amended builtin_protocols (by decide) (by decide)⟩

end PPPSpec
